import Mathlib

/-!
Verification development for the Matterhorn spiking-neural-network library
(matterhorn/snn: soma.py, layer.py, container.py).

Modelling conventions:
* A tensor is modelled as a function from an index type to the rationals;
  elementwise torch operations become pointwise operations on such functions.
  The batch axis plays no role in the per-element claims and is folded into
  the index type.
* Python floats are modelled as rationals (the claims are about exact
  algebraic identities of the update formulas, not rounding).
* The lazy scalar-to-tensor state promotion (a state attribute is a plain
  float until the first forward call materialises it against the input via
  init_tensor) is modelled by the sum type MVal below.
* Stateful nn.Module forward methods become pure functions from
  (state, input) to (state, output).
* A constructor that can fail its assert is modelled as a function into
  Except Unit (the Python assert raises AssertionError).
-/

/-- Lazily materialised state value: a plain scalar before the first forward
call, a tensor afterwards (mirrors the float-or-Tensor attributes u, w, s, r). -/
inductive MVal (ι : Type) where
  | scalar (c : ℚ)
  | tensor (t : ι → ℚ)

/-- Embeds init_tensor (identical in PFHSkeleton, RFRSkeleton and SRM0Linear):
if the state is still a float, multiply it by a ones tensor shaped like the
reference input, otherwise return it unchanged. -/
def initTensor {ι : Type} (u : MVal ι) (x : ι → ℚ) : ι → ℚ :=
  match u with
  | MVal.scalar c => fun _ => c * 1
  | MVal.tensor t => t

/-- Reads the current value of a scalar-shaped state (index type Unit). -/
def MVal.read (st : MVal Unit) : ℚ :=
  match st with
  | MVal.scalar c => c
  | MVal.tensor t => t ()

/-- Modelled from the spec: the surrogate-gradient module
(matterhorn.snn.surrogate, supplying the default spiking_function
Rectangular) is not under src. Per spec section 4.5 the forward pass of the
spiking function is O = Heaviside(u - u_threshold), where the caller has
already subtracted u_threshold, so the function maps x to 1 when 0 <= x and
to 0 otherwise. -/
def heaviside (x : ℚ) : ℚ := if 0 ≤ x then 1 else 0

/-- Embeds val_to_spike.forward (layer.py): x.ge(0.5).to(x), elementwise
1 when 0.5 <= x, else 0. -/
def val_to_spike (x : ℚ) : ℚ := if (0.5 : ℚ) ≤ x then 1 else 0

/-- Embeds val_to_spike.apply on a whole tensor: elementwise application. -/
def val_to_spike_apply {κ : Type} (y : κ → ℚ) : κ → ℚ :=
  fun i => val_to_spike (y i)

/-- Embeds the forward method shared by the pooling and reshaping adapters
(MaxPool1d/2d/3d, AvgPool1d/2d/3d, Flatten, Unflatten in layer.py):
y = super().forward(x); return val_to_spike.apply(y). The underlying torch
operator (pooling or reshaping) is an external collaborator and is therefore
abstracted as the function argument pool. -/
def poolForward {ι κ : Type} (pool : (ι → ℚ) → κ → ℚ) (x : ι → ℚ) : κ → ℚ :=
  val_to_spike_apply (pool x)

/-- Embeds Container.forward (container.py): apply encoder, then snn_model,
then decoder, skipping any stage that is None. -/
def Container.forward {τ : Type} (encoder snn_model decoder : Option (τ → τ))
    (x : τ) : τ :=
  let x1 := match encoder with
    | some e => e x
    | none => x
  let x2 := match snn_model with
    | some m => m x1
    | none => x1
  match decoder with
  | some d => d x2
  | none => x2

/-- Written from the claim text, for comparison with Container.forward:
a stage that is present is applied, a missing stage is skipped. -/
def applyStage {τ : Type} (f : Option (τ → τ)) (x : τ) : τ :=
  match f with
  | some g => g x
  | none => x

/-- Claim C8: for every real-valued input tensor, the forward pass of
val_to_spike returns a tensor whose every element is exactly 0 or 1, with 1
exactly where the input element is at least 0.5 and 0 otherwise. -/
theorem val_to_spike_binary {κ : Type} (x : κ → ℚ) (i : κ) :
    (val_to_spike_apply x i = 0 ∨ val_to_spike_apply x i = 1)
    ∧ (val_to_spike_apply x i = 1 ↔ (0.5 : ℚ) ≤ x i)
    ∧ (val_to_spike_apply x i = 0 ↔ x i < (0.5 : ℚ)) := by
  unfold val_to_spike_apply val_to_spike
  by_cases h : (0.5 : ℚ) ≤ x i
  · simp [h]
  · simp [h, lt_of_not_le h]

/-- Claim C9: the pooling and reshaping adapter layers apply val_to_spike to
the result of the underlying torch operator, so every output element is
exactly 0 or 1, equal to 1 iff the pooled or reshaped value is at least 0.5;
in particular average-pool outputs are re-binarised, never fractional. -/
theorem pool_forward_binary {ι κ : Type} (pool : (ι → ℚ) → κ → ℚ)
    (x : ι → ℚ) (i : κ) :
    (poolForward pool x i = 0 ∨ poolForward pool x i = 1)
    ∧ (poolForward pool x i = 1 ↔ (0.5 : ℚ) ≤ pool x i)
    ∧ (poolForward pool x i = 0 ↔ pool x i < (0.5 : ℚ)) := by
  unfold poolForward val_to_spike_apply val_to_spike
  by_cases h : (0.5 : ℚ) ≤ pool x i
  · simp [h]
  · simp [h, lt_of_not_le h]

/-- Claim C10: a Container whose encoder, snn_model and decoder are all None
returns its input unchanged, and in general every stage that is None is
skipped while the remaining stages are applied in encoder, snn_model,
decoder order. -/
theorem container_forward_stages {τ : Type} (x : τ) :
    Container.forward (none : Option (τ → τ)) none none x = x
    ∧ ∀ encoder snn_model decoder : Option (τ → τ),
        Container.forward encoder snn_model decoder x
          = applyStage decoder (applyStage snn_model (applyStage encoder x)) := by
  constructor
  · rfl
  · intro encoder snn_model decoder
    cases encoder <;> cases snn_model <;> cases decoder <;> rfl

/-- Embeds the configuration of a PFHSkeleton neuron (soma.py): tau_m,
u_threshold, u_rest, and the lazily materialised potential u; the
constructor ends with self.reset(), which sets u to the float u_rest. -/
structure PFHNeuron (ι : Type) where
  tau_m : ℚ
  u_threshold : ℚ
  u_rest : ℚ
  u : MVal ι

/-- Embeds PFHSkeleton.__init__ (soma.py): asserts that tau_m is not zero
(the Python assert raises AssertionError, modelled as Except.error), then
stores the hyperparameters and calls reset, leaving u equal to the scalar
u_rest. -/
def PFHSkeleton.init (ι : Type) (tau_m u_threshold u_rest : ℚ) :
    Except Unit (PFHNeuron ι) :=
  if tau_m = 0 then Except.error ()
  else Except.ok ⟨tau_m, u_threshold, u_rest, MVal.scalar u_rest⟩

/-- Embeds the configuration of an RFRSkeleton neuron (soma.py). -/
structure RFRNeuron (ι : Type) where
  tau_m : ℚ
  u_threshold : ℚ
  u_rest : ℚ
  u : MVal ι

/-- Embeds RFRSkeleton.__init__ (soma.py): stores the hyperparameters and
calls reset. Unlike PFHSkeleton.__init__, there is no assert on tau_m in
the source, so construction always succeeds. -/
def RFRSkeleton.init (ι : Type) (tau_m u_threshold u_rest : ℚ) :
    Except Unit (RFRNeuron ι) :=
  Except.ok ⟨tau_m, u_threshold, u_rest, MVal.scalar u_rest⟩

/-- Embeds LIF.__init__ (soma.py): passes tau_m through to
RFRSkeleton.__init__ unchanged (QIF and EIF do the same; IF and Izhikevich
hardcode tau_m to 1.0). -/
def LIF.init (ι : Type) (tau_m u_threshold u_rest : ℚ) :
    Except Unit (RFRNeuron ι) :=
  RFRSkeleton.init ι tau_m u_threshold u_rest

/-- Embeds the configuration and state of an SRM0Linear layer (layer.py):
the learnable weight matrix (its random kaiming initialisation is external;
the matrix is taken as a parameter), the hyperparameters, and the lazily
materialised states s (per input feature) and r (per output feature). -/
structure SRM0Neuron (ι κ : Type) where
  weight : κ → ι → ℚ
  tau_m : ℚ
  u_threshold : ℚ
  u_rest : ℚ
  s : MVal ι
  r : MVal κ

/-- Embeds SRM0Linear.__init__ (layer.py): stores weight and
hyperparameters and calls reset (s and r become the float 0.0). No check
on tau_m exists in the source. -/
def SRM0Linear.init {ι κ : Type} (w : κ → ι → ℚ) (tau_m u_threshold u_rest : ℚ) :
    Except Unit (SRM0Neuron ι κ) :=
  Except.ok ⟨w, tau_m, u_threshold, u_rest, MVal.scalar 0, MVal.scalar 0⟩

/-- Counterexample to claim C1 as stated: constructing an RFRSkeleton (and
an LIF, which passes tau_m through, and an SRM0Linear) with tau_m equal to
zero succeeds; only PFHSkeleton rejects it. -/
theorem tau_m_zero_accepted :
    (RFRSkeleton.init Unit 0 1 0).isOk = true
    ∧ (LIF.init Unit 0 1 0).isOk = true
    ∧ (SRM0Linear.init (fun (_ : Unit) (_ : Unit) => (1 : ℚ)) 0 1 0).isOk = true
    ∧ (PFHSkeleton.init Unit 0 1 0).isOk = false := by
  refine ⟨rfl, rfl, rfl, ?_⟩
  simp [PFHSkeleton.init, Except.isOk, Except.toBool]

/-- Claim C1 (amended): only the PFHSkeleton constructor checks tau_m; it
fails with a configuration error exactly when tau_m equals zero and
succeeds otherwise, while the RFRSkeleton family (IF/LIF/QIF/EIF/Izhikevich
pass tau_m through or hardcode it) and SRM0Linear perform no such check, so
their construction succeeds for every tau_m, including zero. -/
theorem tau_m_check_only_pfh {ι κ : Type} (tau_m u_threshold u_rest : ℚ)
    (w : κ → ι → ℚ) :
    ((PFHSkeleton.init ι tau_m u_threshold u_rest).isOk = true ↔ tau_m ≠ 0)
    ∧ (RFRSkeleton.init ι tau_m u_threshold u_rest).isOk = true
    ∧ (LIF.init ι tau_m u_threshold u_rest).isOk = true
    ∧ (SRM0Linear.init w tau_m u_threshold u_rest).isOk = true := by
  refine ⟨?_, rfl, rfl, rfl⟩
  by_cases h : tau_m = 0
  · simp [PFHSkeleton.init, h, Except.isOk, Except.toBool]
  · simp [PFHSkeleton.init, h, Except.isOk, Except.toBool]

/-- Embeds RFRSkeleton.reset (soma.py): self.u = self.u_rest, a plain
float, whatever the current state is. -/
def RFRSkeleton.reset {ι : Type} (u_rest : ℚ) (st : MVal ι) : MVal ι :=
  MVal.scalar u_rest

/-- The pre-simulation initial potential of an RFRSkeleton neuron: the
constructor ends with self.reset(), so it is the scalar u_rest. -/
def RFRSkeleton.initState {ι : Type} (u_rest : ℚ) : MVal ι :=
  MVal.scalar u_rest

/-- Embeds the state of an Izhikevich neuron (soma.py): the potential u and
the recovery variable w, both lazily materialised. -/
structure IzhState (ι : Type) where
  u : MVal ι
  w : MVal ι

/-- Embeds Izhikevich.reset (soma.py): self.u = 0.0; self.w = 0.0. -/
def Izhikevich.reset {ι : Type} (st : IzhState ι) : IzhState ι :=
  ⟨MVal.scalar 0, MVal.scalar 0⟩

/-- The pre-simulation initial state of an Izhikevich neuron: the
constructor ends with self.reset() (dispatching to Izhikevich.reset). -/
def Izhikevich.initState {ι : Type} : IzhState ι :=
  ⟨MVal.scalar 0, MVal.scalar 0⟩

/-- Embeds the mutable state of an SRM0Linear layer (layer.py). -/
structure SRM0State (ι κ : Type) where
  s : MVal ι
  r : MVal κ

/-- Embeds SRM0Linear.reset (layer.py): self.s = 0.0; self.r = 0.0. -/
def SRM0Linear.reset {ι κ : Type} (st : SRM0State ι κ) : SRM0State ι κ :=
  ⟨MVal.scalar 0, MVal.scalar 0⟩

/-- The pre-simulation initial state of an SRM0Linear layer: the
constructor ends with self.reset(). -/
def SRM0Linear.initState {ι κ : Type} : SRM0State ι κ :=
  ⟨MVal.scalar 0, MVal.scalar 0⟩

/-- Claim C3: for every state an RFR-family neuron (including Izhikevich)
or an SRM0Linear layer may hold, including any state reached after
processing timesteps, reset restores every state variable (u, and w or s
and r where present) to its initial pre-simulation value, and reset applied
twice yields the same internal state as reset applied once. -/
theorem reset_restores_initial_and_idempotent {ι κ : Type} (u_rest : ℚ)
    (st1 : MVal ι) (st2 : IzhState ι) (st3 : SRM0State ι κ) :
    (RFRSkeleton.reset u_rest st1 = RFRSkeleton.initState u_rest
      ∧ RFRSkeleton.reset u_rest (RFRSkeleton.reset u_rest st1)
          = RFRSkeleton.reset u_rest st1)
    ∧ (Izhikevich.reset st2 = Izhikevich.initState
      ∧ Izhikevich.reset (Izhikevich.reset st2) = Izhikevich.reset st2)
    ∧ (SRM0Linear.reset st3 = SRM0Linear.initState
      ∧ SRM0Linear.reset (SRM0Linear.reset st3) = SRM0Linear.reset st3) :=
  ⟨⟨rfl, rfl⟩, ⟨rfl, rfl⟩, ⟨rfl, rfl⟩⟩

/-- An inner single-step stateful module as the Temporal container sees it:
a step function (forward), a reset hook and a step_once hook acting on the
module state. -/
structure SModule (σ τ υ : Type) where
  step : σ → τ → σ × υ
  reset : σ → σ
  stepOnce : σ → σ

/-- Embeds the loop body of Temporal.forward (container.py): result = [];
for t in range(time_steps): result.append(self.module(x[t])); the list of
slices is the time-major input, the accumulator mirrors the Python append
order, and stacking the list is returning it. -/
def temporalLoopAux {σ τ υ : Type} (step : σ → τ → σ × υ) :
    σ → List τ → List υ → σ × List υ
  | s, [], acc => (s, acc)
  | s, x :: rest, acc =>
      let p := step s x
      temporalLoopAux step p.1 rest (acc ++ [p.2])

/-- Embeds Temporal.forward (container.py): run the loop over the time
slices, then if step_after_process call step_once on the module, then if
reset_after_process call reset on the module, and return the stacked
outputs together with the final module state. -/
def Temporal.forward {σ τ υ : Type} (m : SModule σ τ υ)
    (step_after reset_after : Bool) (s : σ) (xs : List τ) : σ × List υ :=
  let r := temporalLoopAux m.step s xs []
  let s1 := if step_after then m.stepOnce r.1 else r.1
  let s2 := if reset_after then m.reset s1 else s1
  (s2, r.2)

/-- Written from the claim text, for comparison with Temporal.forward: call
the inner module once per slice, sequentially in strictly increasing time
order, threading the module state, and stack the per-step outputs. -/
def manualRun {σ τ υ : Type} (step : σ → τ → σ × υ) :
    σ → List τ → σ × List υ
  | s, [] => (s, [])
  | s, x :: rest =>
      let p := step s x
      let q := manualRun step p.1 rest
      (q.1, p.2 :: q.2)

theorem temporalLoopAux_eq_manualRun {σ τ υ : Type} (step : σ → τ → σ × υ)
    (xs : List τ) : ∀ (s : σ) (acc : List υ),
    temporalLoopAux step s xs acc
      = ((manualRun step s xs).1, acc ++ (manualRun step s xs).2) := by
  induction xs with
  | nil => intro s acc; simp [temporalLoopAux, manualRun]
  | cons x rest ih =>
      intro s acc
      simp only [temporalLoopAux, manualRun, ih]
      simp

/-- Claim C2: for every inner single-step stateful module and every
time-major input of length T, Temporal forward produces exactly the stack
of the per-step outputs obtained by calling the module T times sequentially
in strictly increasing time order from the same starting state (the
post-loop lifecycle hooks touch only the module state, never the stacked
outputs). -/
theorem temporal_forward_eq_manual {σ τ υ : Type} (m : SModule σ τ υ)
    (step_after reset_after : Bool) (s : σ) (xs : List τ) :
    (Temporal.forward m step_after reset_after s xs).2
      = (manualRun m.step s xs).2 := by
  simp [Temporal.forward, temporalLoopAux_eq_manualRun]

/-- Claim C7: with step_after_process at its constructed default of false,
a Temporal container with reset_after_process true (the default) calls
reset on the inner module after producing the result, so when reset always
restores the initial state the module state after forward is that initial
reset state; with reset_after_process false no reset happens and the state
after forward is exactly the state carried out of the sequential loop. -/
theorem temporal_reset_after {σ τ υ : Type} (m : SModule σ τ υ) (s s₀ : σ)
    (xs : List τ) (hreset : ∀ t, m.reset t = s₀) :
    (Temporal.forward m false true s xs).1 = s₀
    ∧ (Temporal.forward m false true s xs).2 = (manualRun m.step s xs).2
    ∧ (Temporal.forward m false false s xs).1 = (manualRun m.step s xs).1 := by
  refine ⟨?_, ?_, ?_⟩
  · simp [Temporal.forward, hreset]
  · simp [Temporal.forward, temporalLoopAux_eq_manualRun]
  · simp [Temporal.forward, temporalLoopAux_eq_manualRun]

/-- Witness for claim C7 at a concrete module: state is a running sum,
reset sets it to 0; over inputs [1, 2] from state 5 the loop ends in state
8, so forward with reset_after_process true ends in state 0, with false in
state 8, and the outputs are the two pre-step states. -/
theorem temporal_reset_after_witness :
    (Temporal.forward
        (⟨fun s x => (s + x, s), fun _ => 0, fun t => t⟩ : SModule ℚ ℚ ℚ)
        false true 5 [1, 2]).1 = 0
    ∧ (Temporal.forward
        (⟨fun s x => (s + x, s), fun _ => 0, fun t => t⟩ : SModule ℚ ℚ ℚ)
        false true 5 [1, 2]).2 = [5, 6]
    ∧ (Temporal.forward
        (⟨fun s x => (s + x, s), fun _ => 0, fun t => t⟩ : SModule ℚ ℚ ℚ)
        false false 5 [1, 2]).1 = 8 := by
  have h := temporal_reset_after
    (⟨fun s x => (s + x, s), fun _ => 0, fun t => t⟩ : SModule ℚ ℚ ℚ)
    5 0 [1, 2] (fun _ => rfl)
  refine ⟨h.1, h.2.1.trans (by norm_num [manualRun]), h.2.2.trans (by norm_num [manualRun])⟩

/-- Embeds RFRSkeleton.f_firing (soma.py): the spiking function applied to
u minus u_threshold, elementwise. -/
def RFRSkeleton.f_firing {ι : Type} (u_threshold : ℚ) (u : ι → ℚ) : ι → ℚ :=
  fun i => heaviside (u i - u_threshold)

/-- Embeds RFRSkeleton.f_reset (soma.py): h = u * (1 - o) + u_rest * o,
elementwise hard reset to the resting potential wherever a spike fired. -/
def RFRSkeleton.f_reset {ι : Type} (u_rest : ℚ) (u o : ι → ℚ) : ι → ℚ :=
  fun i => u i * (1 - o i) + u_rest * o i

/-- Embeds IF.f_response (soma.py): u = h + x, no leak. -/
def IF.f_response {ι : Type} (h x : ι → ℚ) : ι → ℚ :=
  fun i => h i + x i

/-- Embeds RFRSkeleton.forward (soma.py) with the response stage supplied
by the concrete neuron subclass: materialise u against the input, apply
f_response, fire, reset, store the reset potential and return the spike. -/
def RFRSkeleton.forwardWith {ι : Type} (fr : (ι → ℚ) → (ι → ℚ) → (ι → ℚ))
    (u_threshold u_rest : ℚ) (st : MVal ι) (x : ι → ℚ) : MVal ι × (ι → ℚ) :=
  let u0 := initTensor st x
  let u1 := fr u0 x
  let o := RFRSkeleton.f_firing u_threshold u1
  let u2 := RFRSkeleton.f_reset u_rest u1 o
  (MVal.tensor u2, o)

/-- Embeds the forward call of an IF neuron (RFRSkeleton.forward with
IF.f_response). -/
def IF.forward {ι : Type} (u_threshold u_rest : ℚ) (st : MVal ι)
    (x : ι → ℚ) : MVal ι × (ι → ℚ) :=
  RFRSkeleton.forwardWith IF.f_response u_threshold u_rest st x

/-- Iterated simulation of a single IF neuron element (index type Unit)
fed the constant input c at every step, starting from the freshly reset
state in which u is the scalar u_rest; the second component is the spike
emitted by the most recent step (0 before any step). -/
def IF.sim (u_threshold u_rest c : ℚ) : ℕ → MVal Unit × (Unit → ℚ)
  | 0 => (MVal.scalar u_rest, fun _ => 0)
  | n + 1 =>
      IF.forward u_threshold u_rest (IF.sim u_threshold u_rest c n).1 (fun _ => c)

theorem initTensor_read (st : MVal Unit) (x : Unit → ℚ) :
    initTensor st x () = st.read := by
  cases st <;> simp [initTensor, MVal.read]

theorem IF.sim_below (u_threshold u_rest c : ℚ) (n : ℕ)
    (hbelow : ∀ k : ℕ, k < n → u_rest + (k + 1 : ℚ) * c < u_threshold) :
    ∀ k : ℕ, k ≤ n →
      (IF.sim u_threshold u_rest c k).1.read = u_rest + (k : ℚ) * c
      ∧ (k = 0 ∨ (IF.sim u_threshold u_rest c k).2 () = 0) := by
  intro k
  induction k with
  | zero => intro _; simp [IF.sim, MVal.read]
  | succ k ih =>
      intro hk
      have hk' : k ≤ n := Nat.le_of_succ_le hk
      have hread := (ih hk').1
      have hlt : u_rest + ((k : ℚ) + 1) * c < u_threshold := by
        have := hbelow k (Nat.lt_of_succ_le hk)
        exact_mod_cast this
      have hu1 : initTensor (IF.sim u_threshold u_rest c k).1 (fun _ => c) ()
          + c = u_rest + ((k : ℚ) + 1) * c := by
        rw [initTensor_read, hread]; ring
      have hneg : ¬ (0 : ℚ) ≤ initTensor (IF.sim u_threshold u_rest c k).1
          (fun _ => c) () + c - u_threshold := by
        rw [hu1]; linarith
      constructor
      · show (IF.forward u_threshold u_rest (IF.sim u_threshold u_rest c k).1
            (fun _ => c)).1.read = _
        simp only [IF.forward, RFRSkeleton.forwardWith, RFRSkeleton.f_firing,
          RFRSkeleton.f_reset, IF.f_response, MVal.read, heaviside, hneg,
          if_false]
        rw [hu1]; push_cast; ring
      · right
        show (IF.forward u_threshold u_rest (IF.sim u_threshold u_rest c k).1
            (fun _ => c)).2 () = 0
        simp only [IF.forward, RFRSkeleton.forwardWith, RFRSkeleton.f_firing,
          IF.f_response, heaviside, hneg, if_false]

/-- Claim C6: an IF neuron with u_rest below u_threshold, fed a constant
input c greater than 0 from the freshly reset resting state, accumulates
potential by exactly c per step with no leak (strictly monotonic while the
hypotheses keep it below threshold) and emits no spike on those steps, and
at the first step whose accumulated potential meets or exceeds u_threshold
it emits spike 1 and its stored potential is reset to u_rest. -/
theorem if_accumulates (u_threshold u_rest c : ℚ) (n : ℕ)
    (hrest : u_rest < u_threshold) (hc : 0 < c)
    (hbelow : ∀ k : ℕ, k < n → u_rest + (k + 1 : ℚ) * c < u_threshold)
    (hfire : u_threshold ≤ u_rest + (n + 1 : ℚ) * c) :
    (∀ k : ℕ, k < n + 1 →
        (IF.sim u_threshold u_rest c k).1.read = u_rest + (k : ℚ) * c)
    ∧ (∀ k : ℕ, k < n →
        (IF.sim u_threshold u_rest c k).1.read
          < (IF.sim u_threshold u_rest c (k + 1)).1.read)
    ∧ (∀ k : ℕ, k < n → (IF.sim u_threshold u_rest c (k + 1)).2 () = 0)
    ∧ (IF.sim u_threshold u_rest c (n + 1)).2 () = 1
    ∧ (IF.sim u_threshold u_rest c (n + 1)).1.read = u_rest := by
  have hmain := IF.sim_below u_threshold u_rest c n hbelow
  have hreadn := (hmain n le_rfl).1
  have hu1 : initTensor (IF.sim u_threshold u_rest c n).1 (fun _ => c) ()
      + c = u_rest + ((n : ℚ) + 1) * c := by
    rw [initTensor_read, hreadn]; ring
  have hpos : (0 : ℚ) ≤ initTensor (IF.sim u_threshold u_rest c n).1
      (fun _ => c) () + c - u_threshold := by
    rw [hu1]; linarith
  refine ⟨?_, ?_, ?_, ?_, ?_⟩
  · intro k hk
    exact (hmain k (Nat.lt_succ_iff.mp hk)).1
  · intro k hk
    rw [(hmain k (Nat.le_of_lt hk)).1, (hmain (k + 1) hk).1]
    push_cast
    nlinarith
  · intro k hk
    rcases (hmain (k + 1) hk).2 with h0 | h0
    · exact absurd h0 (Nat.succ_ne_zero k)
    · exact h0
  · show (IF.forward u_threshold u_rest (IF.sim u_threshold u_rest c n).1
        (fun _ => c)).2 () = 1
    simp only [IF.forward, RFRSkeleton.forwardWith, RFRSkeleton.f_firing,
      IF.f_response, heaviside, hpos, if_true]
  · show (IF.forward u_threshold u_rest (IF.sim u_threshold u_rest c n).1
        (fun _ => c)).1.read = u_rest
    simp only [IF.forward, RFRSkeleton.forwardWith, RFRSkeleton.f_firing,
      RFRSkeleton.f_reset, IF.f_response, MVal.read, heaviside, hpos, if_true]
    ring

/-- Witness for claim C6: u_threshold 1, u_rest 0, constant input one
third, n = 2: the potential visits one third and two thirds (no spike),
then step 3 reaches 1, fires, and resets the potential to 0. -/
theorem if_accumulates_witness :
    ((0 : ℚ) < 1 ∧ (0 : ℚ) < 1 / 3
      ∧ (∀ k : ℕ, k < 2 → (0 : ℚ) + (k + 1 : ℚ) * (1 / 3) < 1)
      ∧ (1 : ℚ) ≤ 0 + (2 + 1 : ℚ) * (1 / 3))
    ∧ (IF.sim 1 0 (1 / 3) 2).1.read = 2 / 3
    ∧ (IF.sim 1 0 (1 / 3) 3).2 () = 1
    ∧ (IF.sim 1 0 (1 / 3) 3).1.read = 0 := by
  have hb : ∀ k : ℕ, k < 2 → (0 : ℚ) + (k + 1 : ℚ) * (1 / 3) < 1 := by
    intro k hk
    interval_cases k <;> norm_num
  have h := if_accumulates 1 0 (1 / 3) 2 (by norm_num) (by norm_num) hb
    (by norm_num)
  refine ⟨⟨by norm_num, by norm_num, hb, by norm_num⟩, ?_, h.2.2.2.1, h.2.2.2.2⟩
  have := h.1 2 (by norm_num)
  rw [this]; norm_num

/-- Embeds SRM0Linear.f_synapse_response (layer.py):
s = (1 / tau_m) * s + o, elementwise leaky accumulation of presynaptic
spikes. -/
def SRM0Linear.f_synapse_response {ι : Type} (tau_m : ℚ) (s o : ι → ℚ) :
    ι → ℚ :=
  fun j => (1 / tau_m) * s j + o j

/-- Embeds SRM0Linear.f_synapse_sum (layer.py): nn.functional.linear with
weight of shape (out_features, in_features) and no bias, per output row. -/
def SRM0Linear.f_synapse_sum {ι κ : Type} [Fintype ι] (w : κ → ι → ℚ)
    (s : ι → ℚ) : κ → ℚ :=
  fun i => ∑ j, w i j * s j

/-- Embeds SRM0Linear.f_response (layer.py): u = u_rest + x * r,
potential gated multiplicatively by the refractory state. -/
def SRM0Linear.f_response {κ : Type} (u_rest : ℚ) (r x : κ → ℚ) : κ → ℚ :=
  fun i => u_rest + x i * r i

/-- Embeds SRM0Linear.f_firing (layer.py): the spiking function applied to
u minus u_threshold. -/
def SRM0Linear.f_firing {κ : Type} (u_threshold : ℚ) (u : κ → ℚ) : κ → ℚ :=
  fun i => heaviside (u i - u_threshold)

/-- Embeds SRM0Linear.f_reset (layer.py): r = 1.0 - o (the u argument of
the Python method is ignored by its body). -/
def SRM0Linear.f_reset {κ : Type} (u o : κ → ℚ) : κ → ℚ :=
  fun i => 1 - o i

/-- Immutable SRM0Linear hyperparameters. -/
structure SRM0Params where
  tau_m : ℚ
  u_threshold : ℚ
  u_rest : ℚ

/-- The synaptic trace after the current step of SRM0Linear.forward:
self.s = init_tensor(self.s, o); self.s = f_synapse_response(self.s, o). -/
def SRM0Linear.sNext {ι κ : Type} (p : SRM0Params) (st : SRM0State ι κ)
    (oin : ι → ℚ) : ι → ℚ :=
  SRM0Linear.f_synapse_response p.tau_m (initTensor st.s oin) oin

/-- The synaptic potential x of the current step of SRM0Linear.forward:
x = f_synapse_sum(self.weight, self.s). -/
def SRM0Linear.xval {ι κ : Type} [Fintype ι] (p : SRM0Params)
    (w : κ → ι → ℚ) (st : SRM0State ι κ) (oin : ι → ℚ) : κ → ℚ :=
  SRM0Linear.f_synapse_sum w (SRM0Linear.sNext p st oin)

/-- The membrane potential u of the current step of SRM0Linear.forward:
self.r = init_tensor(self.r, x); u = f_response(self.r, x). -/
def SRM0Linear.uval {ι κ : Type} [Fintype ι] (p : SRM0Params)
    (w : κ → ι → ℚ) (st : SRM0State ι κ) (oin : ι → ℚ) : κ → ℚ :=
  SRM0Linear.f_response p.u_rest
    (initTensor st.r (SRM0Linear.xval p w st oin))
    (SRM0Linear.xval p w st oin)

/-- The output spike o of the current step of SRM0Linear.forward:
o = f_firing(u). -/
def SRM0Linear.oval {ι κ : Type} [Fintype ι] (p : SRM0Params)
    (w : κ → ι → ℚ) (st : SRM0State ι κ) (oin : ι → ℚ) : κ → ℚ :=
  SRM0Linear.f_firing p.u_threshold (SRM0Linear.uval p w st oin)

/-- Embeds SRM0Linear.forward (layer.py): run the synapse stage, the soma
stage, store the new s and the new r = f_reset(u, o), and return the
spike o. -/
def SRM0Linear.forward {ι κ : Type} [Fintype ι] (p : SRM0Params)
    (w : κ → ι → ℚ) (st : SRM0State ι κ) (oin : ι → ℚ) :
    SRM0State ι κ × (κ → ℚ) :=
  (⟨MVal.tensor (SRM0Linear.sNext p st oin),
    MVal.tensor (SRM0Linear.f_reset (SRM0Linear.uval p w st oin)
      (SRM0Linear.oval p w st oin))⟩,
   SRM0Linear.oval p w st oin)

/-- Claim C4: the refractory state stored by SRM0Linear.forward equals
1 - O elementwise; hence a unit that fired this step (O at i equal to 1)
has R exactly 0 for the next timestep, its next-step potential is
u_rest + X * 0 = u_rest whatever the next synaptic input is, and when
u_rest is below u_threshold it emits no spike on that next step. -/
theorem srm0_refractory {ι κ : Type} [Fintype ι] (p : SRM0Params)
    (w : κ → ι → ℚ) (st : SRM0State ι κ) (oin : ι → ℚ) (i : κ) :
    ((SRM0Linear.forward p w st oin).1.r
        = MVal.tensor (fun j => 1 - SRM0Linear.oval p w st oin j))
    ∧ (SRM0Linear.oval p w st oin i = 1 →
        ∀ oin2 : ι → ℚ,
          initTensor ((SRM0Linear.forward p w st oin).1.r)
              (SRM0Linear.xval p w (SRM0Linear.forward p w st oin).1 oin2) i = 0
          ∧ SRM0Linear.uval p w (SRM0Linear.forward p w st oin).1 oin2 i
              = p.u_rest
          ∧ (p.u_rest < p.u_threshold →
              SRM0Linear.oval p w (SRM0Linear.forward p w st oin).1 oin2 i
                = 0)) := by
  constructor
  · rfl
  · intro hfire oin2
    have hr : initTensor ((SRM0Linear.forward p w st oin).1.r)
        (SRM0Linear.xval p w (SRM0Linear.forward p w st oin).1 oin2) i = 0 := by
      simp only [SRM0Linear.forward, initTensor, SRM0Linear.f_reset, hfire]
      ring
    have hu : SRM0Linear.uval p w (SRM0Linear.forward p w st oin).1 oin2 i
        = p.u_rest := by
      simp only [SRM0Linear.uval, SRM0Linear.f_response]
      rw [hr]
      ring
    refine ⟨hr, hu, ?_⟩
    intro hlt
    simp only [SRM0Linear.oval, SRM0Linear.f_firing, heaviside]
    rw [hu]
    have : ¬ (0 : ℚ) ≤ p.u_rest - p.u_threshold := by linarith
    simp [this]

/-- Witness for claim C4: a one-input one-output SRM0Linear layer with
tau_m 2, u_threshold 1, u_rest 0, unit weight, trace 0 and refractory
state 1, fed an input spike: the potential reaches 1 and the unit fires,
so the stored refractory state is 0 and on the next step, with input 5,
the potential is 0 and no spike is emitted. -/
theorem srm0_refractory_witness :
    SRM0Linear.oval (ι := Unit) (κ := Unit) ⟨2, 1, 0⟩ (fun _ _ => 1)
        ⟨MVal.scalar 0, MVal.tensor (fun _ => 1)⟩ (fun _ => 1) () = 1
    ∧ SRM0Linear.uval (ι := Unit) (κ := Unit) ⟨2, 1, 0⟩ (fun _ _ => 1)
        (SRM0Linear.forward ⟨2, 1, 0⟩ (fun _ _ => 1)
          ⟨MVal.scalar 0, MVal.tensor (fun _ => 1)⟩ (fun _ => 1)).1
        (fun _ => 5) () = 0
    ∧ SRM0Linear.oval (ι := Unit) (κ := Unit) ⟨2, 1, 0⟩ (fun _ _ => 1)
        (SRM0Linear.forward ⟨2, 1, 0⟩ (fun _ _ => 1)
          ⟨MVal.scalar 0, MVal.tensor (fun _ => 1)⟩ (fun _ => 1)).1
        (fun _ => 5) () = 0 := by
  have hfire : SRM0Linear.oval (ι := Unit) (κ := Unit) ⟨2, 1, 0⟩
      (fun _ _ => 1) ⟨MVal.scalar 0, MVal.tensor (fun _ => 1)⟩
      (fun _ => 1) () = 1 := by
    simp [SRM0Linear.oval, SRM0Linear.uval, SRM0Linear.xval,
      SRM0Linear.sNext, SRM0Linear.f_firing, SRM0Linear.f_response,
      SRM0Linear.f_synapse_sum, SRM0Linear.f_synapse_response, initTensor,
      heaviside]
  have h := srm0_refractory (ι := Unit) (κ := Unit) ⟨2, 1, 0⟩
    (fun _ _ => 1) ⟨MVal.scalar 0, MVal.tensor (fun _ => 1)⟩
    (fun _ => 1) ()
  have h2 := h.2 hfire (fun _ => 5)
  exact ⟨hfire, h2.2.1, h2.2.2 (by norm_num)⟩

/-- Embeds Izhikevich.f_response (soma.py): materialise self.w against h
via init_tensor (the same lazy promotion used for self.u), then
dw = a * (b * h - w); self.w = self.w + dw;
du = 0.04 * h * h + 5.0 * h + 140.0 - self.w + x; u = h + du.
Returns the pair of the updated recovery variable and the new potential. -/
def Izhikevich.f_response {ι : Type} (a b : ℚ) (w : MVal ι) (h x : ι → ℚ) :
    (ι → ℚ) × (ι → ℚ) :=
  let w0 := initTensor w h
  let w1 := fun i => w0 i + a * (b * h i - w0 i)
  let u := fun i => h i + (0.04 * h i * h i + 5 * h i + 140 - w1 i + x i)
  (w1, u)

/-- Embeds the forward call of an Izhikevich neuron (the inherited
RFRSkeleton.forward with Izhikevich.f_response, which also updates self.w
as a side effect; u_rest is hardcoded to 0.0 by Izhikevich.__init__). -/
def Izhikevich.forward {ι : Type} (a b u_threshold : ℚ) (st : IzhState ι)
    (x : ι → ℚ) : IzhState ι × (ι → ℚ) :=
  let u0 := initTensor st.u x
  let p := Izhikevich.f_response a b st.w u0 x
  let o := RFRSkeleton.f_firing u_threshold p.2
  let u2 := RFRSkeleton.f_reset 0 p.2 o
  (⟨MVal.tensor u2, MVal.tensor p.1⟩, o)

/-- Claim C5: in every Izhikevich forward call the recovery variable w is
lazily materialised by the same init_tensor promotion as u, updated to
w_new = w + a * (b * U_prev - w), and the potential update uses the
already-updated value: U = U_prev + 0.04 * U_prev^2 + 5 * U_prev + 140
- w_new + X; moreover the forward call stores exactly that w_new computed
from the materialised held-over potential. -/
theorem izhikevich_response {ι : Type} (a b u_threshold : ℚ) (wst : MVal ι)
    (st : IzhState ι) (h x : ι → ℚ) (i : ι) :
    (Izhikevich.f_response a b wst h x).1 i
        = initTensor wst h i + a * (b * h i - initTensor wst h i)
    ∧ (Izhikevich.f_response a b wst h x).2 i
        = h i + (0.04 * h i * h i + 5 * h i + 140
            - (Izhikevich.f_response a b wst h x).1 i + x i)
    ∧ (Izhikevich.forward a b u_threshold st x).1.w
        = MVal.tensor
            (Izhikevich.f_response a b st.w (initTensor st.u x) x).1 :=
  ⟨rfl, rfl, rfl⟩
